import Mathlib

/-!
Verification of the memreport-insights parsing core against its source.

Strings are modelled as lists of characters (`Str`).  JavaScript string
primitives used by the source (`trim`, `split`, `includes`, `startsWith`,
`replace`, `toLowerCase`) are given executable list-level counterparts.
The two regular expressions built by `MemreportParser` from configuration
markers (`start.+?end$` with flags `ms`, and
`(?<pre>.*?)(?<table>start.*)(?<post>end)` with flags `ms`) are modelled
with the markers taken as literal strings, following the exact
leftmost/lazy/greedy semantics of the JavaScript engine on such patterns.
Arbitrary user-configured regexes (a table pattern's `splitFormat`
extraction rule and its `separator`) are modelled as oracle functions
returning the capture list (resp. the split fragments); the surrounding
logic (trimming, the comma expansion, dropping unmatched lines) is
embedded from the source.
-/

abbrev Str := List Char

/-- JavaScript whitespace characters (ASCII portion) used by `trim` and `\s`. -/
def isWS (c : Char) : Bool :=
  c = ' ' || c = '\t' || c = '\n' || c = '\r' || c = '\x0b' || c = '\x0c'

/-- Model of JavaScript `String.prototype.trim`. -/
def trim (s : Str) : Str :=
  ((s.dropWhile isWS).reverse.dropWhile isWS).reverse

/-- Model of JavaScript `String.prototype.split` with a single-character
separator: `splitOnChar c s` cuts `s` at every occurrence of `c`. -/
def splitOnChar (ch : Char) : Str → List Str
  | [] => [[]]
  | c :: rest =>
    if c = ch then [] :: splitOnChar ch rest
    else
      match splitOnChar ch rest with
      | [] => [[c]]
      | y :: ys => (c :: y) :: ys

/-- Number of occurrences of a character in a string. -/
def countChar (ch : Char) : Str → Nat
  | [] => 0
  | c :: rest => (if c = ch then 1 else 0) + countChar ch rest

/-- `occursAt text pat i` holds when `pat` occurs in `text` at index `i`. -/
def occursAt (text pat : Str) (i : Nat) : Bool :=
  List.isPrefixOf pat (text.drop i)

/-- Model of JavaScript `String.prototype.includes`. -/
def containsStr (text pat : Str) : Bool :=
  (List.range (text.length + 1)).any (fun i => occursAt text pat i)

/-! ## VersionDetector — src/unnamed/part_000 `detectUEVersion` -/

inductive SupportedVersion where
  | v427
  | v53
  | v56
deriving DecidableEq

/-- `hasLumen || hasNanite` from `detectUEVersion` (lines 8-10). -/
def hasUE5Features (content : Str) : Bool :=
  (containsStr content "Lumen".data || containsStr content "STAT_Lumen".data) ||
  (containsStr content "Nanite".data || containsStr content "STAT_Nanite".data)

/-- The three UE 5.6-exclusive markers checked by `detectUEVersion` (lines 13-17). -/
def hasUE56Markers (content : Str) : Bool :=
  containsStr content "MemReport: Begin command \"rhi.dumpresourcememory summary".data ||
  containsStr content "STATGROUP_NaniteCoarseMeshStreaming".data ||
  containsStr content "wp.DumpStreamingSources".data

/-- src/unnamed/part_000 `detectUEVersion`. -/
def detectUEVersion (content : Str) : SupportedVersion :=
  if hasUE5Features content && hasUE56Markers content then .v56
  else if hasUE5Features content then .v53
  else if containsStr content "epicapp=UE_5".data then .v53
  else .v427

/-! ## Configuration data model — src/src/types/configTypes.ts (as used) -/

structure SectionDefinition where
  name : Str
  startPattern : Str
  endPattern : Str
  parsePatternId : Option Str
deriving DecidableEq

structure EngineConfig where
  version : Str
  description : Str
  sections : List SectionDefinition
deriving DecidableEq

/-- A table extraction rule.  `splitFormat` is the capture-group extraction
regex, modelled as an oracle returning `match.slice(1)` (each group possibly
undefined) or `none` when the regex does not match the row; `separator` is
the fixed separator regex, modelled as an oracle returning the raw split
fragments. -/
structure TableParsePattern where
  name : Option Str
  startPattern : Str
  endPattern : Str
  headers : Bool
  separator : Option (Str → List Str)
  splitFormat : Option (Str → Option (List (Option Str)))
  numericColumns : List Nat

structure ResolvedSectionConfig where
  name : Str
  startPattern : Str
  endPattern : Str
  tables : List TableParsePattern

/-! ## EngineConfigReader — src/src/config/baseEngineReader.ts -/

/-- `generateSafeFileName` step 1: replace Windows/Linux-invalid filename
characters with an underscore (line 131). -/
def isInvalidFileChar (c : Char) : Bool :=
  c = '<' || c = '>' || c = ':' || c = '"' || c = '/' || c = '\\' ||
  c = '|' || c = '?' || c = '*'

def replaceInvalidChars (s : Str) : Str :=
  s.map (fun c => if isInvalidFileChar c then '_' else c)

/-- Replace every maximal run of characters satisfying `p` with a single
underscore — the effect of `replace(/\s+/g, '_')` and `replace(/\.+/g, '_')`. -/
def collapseRunsAux (p : Char → Bool) : Str → Bool → Str
  | [], _ => []
  | c :: rest, inRun =>
    if p c then
      if inRun then collapseRunsAux p rest true
      else '_' :: collapseRunsAux p rest true
    else c :: collapseRunsAux p rest false

def collapseRuns (p : Char → Bool) (s : Str) : Str :=
  collapseRunsAux p s false

/-- `BaseEngineReader.generateSafeFileName` (lines 128-135). -/
def generateSafeFileName (command : Str) : Str :=
  (collapseRuns (fun c => c = '.')
    (collapseRuns isWS (replaceInvalidChars command))).map Char.toLower

/-- `BaseEngineReader.parseCommandToSection` (lines 111-121).  The source
never returns null on this path. -/
def parseCommandToSection (command : Str) : SectionDefinition :=
  { name := command
    startPattern := "MemReport: Begin command \"".data ++ command ++ ['"']
    endPattern := "MemReport: End command \"".data ++ command ++ ['"']
    parsePatternId := some (generateSafeFileName command) }

/-- `+Cmd=` line payload: `trimmedLine.substring(5).replace(/"/g, '')`. -/
def stripCmd (line : Str) : Str :=
  (line.drop 5).filter (fun c => c ≠ '"')

/-- The `[MemReportFullCommands]` block loop of `parseUE5EngineConfig`
(lines 70-98), carrying the `inMemReportSection` flag. -/
def parseUE5Lines : List Str → Bool → List SectionDefinition
  | [], _ => []
  | line :: rest, inSec =>
    let t := trim line
    if t = "[MemReportFullCommands]".data then parseUE5Lines rest true
    else if List.isPrefixOf ['['] t then parseUE5Lines rest false
    else if List.isPrefixOf [';'] t || t = [] then parseUE5Lines rest inSec
    else if inSec && List.isPrefixOf "+Cmd=".data t then
      parseCommandToSection (stripCmd t) :: parseUE5Lines rest inSec
    else parseUE5Lines rest inSec

/-- `BaseEngineReader.parseUE5EngineConfig` (lines 64-105). -/
def parseUE5EngineConfig (content : Str) (version : Str) : EngineConfig :=
  { version := version
    description := "Unreal Engine ".data ++ version ++ " configuration".data
    sections := parseUE5Lines (splitOnChar '\n' content) false }

/-- `BaseEngineReader.parseSectionLine` (lines 141-160); JavaScript
`split('=', 2)` truncates the full split to its first two fragments. -/
def parseSectionLine (line : Str) : Option SectionDefinition :=
  match (splitOnChar '=' line).take 2 with
  | [name, value] =>
    if name = [] || value = [] then none
    else
      let parts := splitOnChar '|' value
      if parts.length < 2 then none
      else
        some { name := trim name
               startPattern := trim ((parts.get? 0).getD [])
               endPattern := trim ((parts.get? 1).getD [])
               parsePatternId :=
                 match parts.get? 2 with
                 | some s => if trim s = [] then none else some (trim s)
                 | none => none }
  | _ => none

/-- The legacy `[MemReportSections]` block loop of `parseEngineConfig`
(lines 24-51). -/
def parseLegacyLines : List Str → Bool → List SectionDefinition
  | [], _ => []
  | line :: rest, inSec =>
    let t := trim line
    if t = "[MemReportSections]".data then parseLegacyLines rest true
    else if List.isPrefixOf ['['] t then parseLegacyLines rest false
    else if List.isPrefixOf [';'] t || t = [] then parseLegacyLines rest inSec
    else if inSec && containsStr t ['='] then
      match parseSectionLine t with
      | some s => s :: parseLegacyLines rest inSec
      | none => parseLegacyLines rest inSec
    else parseLegacyLines rest inSec

/-- `BaseEngineReader.parseEngineConfig` (lines 12-58): dialect dispatch on
the `[MemReportCommands]` marker. -/
def parseEngineConfig (content : Str) (version : Str) : EngineConfig :=
  if containsStr content "[MemReportCommands]".data then
    parseUE5EngineConfig content version
  else
    { version := version
      description := "Unreal Engine ".data ++ version ++ " configuration".data
      sections := parseLegacyLines (splitOnChar '\n' content) false }

/-- The duplicate-name diagnostic emitted by `validateEngineConfig`. -/
def dupError (name : Str) : Str :=
  "Duplicate section name: ".data ++ name

/-- The per-section loop of `validateEngineConfig` (lines 178-196),
carrying the `sectionNames` set (an empty name is reported as missing and
skips the duplicate check, mirroring the `continue`). -/
def validateSectionsAux : List SectionDefinition → List Str → List Str
  | [], _ => []
  | s :: rest, seen =>
    if s.name = [] then
      "Section name is required".data :: validateSectionsAux rest seen
    else
      (if s.name ∈ seen then [dupError s.name] else []) ++
      (if s.startPattern = [] then
        ["Start pattern is required for section: ".data ++ s.name] else []) ++
      (if s.endPattern = [] then
        ["End pattern is required for section: ".data ++ s.name] else []) ++
      validateSectionsAux rest (s.name :: seen)

/-- `BaseEngineReader.validateEngineConfig` (lines 165-199). -/
def validateEngineConfig (config : EngineConfig) : List Str :=
  (if config.version = [] then ["Version is required".data] else []) ++
  (if config.sections = [] then ["At least one section is required".data] else []) ++
  validateSectionsAux config.sections []

/-- Number of sections carrying a given name. -/
def countNames (n : Str) : List SectionDefinition → Nat
  | [] => 0
  | s :: rest => (if s.name = n then 1 else 0) + countNames n rest

/-- Number of occurrences of a string in a list of strings. -/
def countOcc (x : Str) : List Str → Nat
  | [] => 0
  | y :: rest => (if y = x then 1 else 0) + countOcc x rest

/-! ## ConfigResolver pattern cache — src/unnamed/part_001 `loadParsePattern` -/

/-- The fetched per-pattern resource (`ParsePattern` in configTypes). -/
structure ParsePattern where
  tables : List TableParsePattern

/-- `parsePatternCache`: a JavaScript object keyed by `version:patternId`,
whose stored value is the pattern or `null` (the confirmed-absent marker). -/
abbrev PatternCache := List (Str × Option ParsePattern)

def mkCacheKey (version patternId : Str) : Str :=
  version ++ ':' :: patternId

def cacheGet (cache : PatternCache) (key : Str) : Option (Option ParsePattern) :=
  (cache.find? (fun e => e.1 == key)).map Prod.snd

def cacheSet (cache : PatternCache) (key : Str) (v : Option ParsePattern) : PatternCache :=
  (key, v) :: cache

/-- Possible outcomes of the single `fetch` of a pattern resource inside
`loadParsePattern`, following the source's branch structure (lines 161-187):
non-OK status, a non-JSON content type, an HTML body, a JSON parse failure,
or a successfully parsed pattern. -/
inductive FetchOutcome where
  | notOk
  | wrongContentType
  | htmlBody
  | badJson
  | okJson (p : ParsePattern)

/-- The environment one `loadParsePattern` call runs against: the (cached)
manifest answer from `PatternManifest.patternExists` and the network
response for the pattern resource. -/
structure PatternEnv where
  manifestHas : Bool
  fetch : FetchOutcome

/-- Result of one `loadParsePattern` call: the returned value, the cache
state afterwards, and whether the pattern resource was fetched. -/
structure LoadResult where
  result : Option ParsePattern
  cache : PatternCache
  fetched : Bool

/-- The body of `loadParsePattern` after the truthiness cache check fails
(lines 144-187): consult the manifest, else fetch once and follow the
source's branches — note that the non-OK branch stores `null` while the
content-type, HTML-body and JSON-failure branches return without writing
the cache. -/
def loadParsePatternMiss (env : PatternEnv) (cache : PatternCache)
    (patternId version : Str) : LoadResult :=
  if env.manifestHas then
    match env.fetch with
    | .notOk => ⟨none, cacheSet cache (mkCacheKey version patternId) none, true⟩
    | .wrongContentType => ⟨none, cache, true⟩
    | .htmlBody => ⟨none, cache, true⟩
    | .badJson => ⟨none, cache, true⟩
    | .okJson p => ⟨some p, cacheSet cache (mkCacheKey version patternId) (some p), true⟩
  else ⟨none, cacheSet cache (mkCacheKey version patternId) none, false⟩

/-- `ConfigResolver.loadParsePattern` (lines 138-188).  The initial check
`if (this.parsePatternCache[cacheKey])` is a JavaScript truthiness test: it
hits only when a pattern object is stored, and falls through both on a
missing entry and on a stored `null`. -/
def loadParsePattern (env : PatternEnv) (cache : PatternCache)
    (patternId version : Str) : LoadResult :=
  match cacheGet cache (mkCacheKey version patternId) with
  | some (some p) => ⟨some p, cache, false⟩
  | some none => loadParsePatternMiss env cache patternId version
  | none => loadParsePatternMiss env cache patternId version

/-- `ConfigResolver.clearCache` (lines 214-216). -/
def clearCache : PatternCache := []

/-! ## DocumentParser — src/src/lib/memreportParser.ts -/

structure ParsedTable where
  settings : TableParsePattern
  headers : Option (List Str)
  rows : List (List Str)
  preText : Option Str
  postText : Option Str

structure ParsedSection where
  title : Str
  content : Option Str
  tables : List ParsedTable

structure ParsedDocument where
  title : Str
  sections : List ParsedSection

/-- Constructor normalization `content.replace(/\r\n/g, '\n')` (line 11). -/
def normalizeNewlines : Str → Str
  | [] => []
  | '\r' :: '\n' :: rest => '\n' :: normalizeNewlines rest
  | c :: rest => c :: normalizeNewlines rest

/-- A line matched by the command-echo regex `^MemReport: .+? command.+$`
(with the `m` flag, applied per line): the line starts with `MemReport: `,
followed by at least one character, then ` command`, then at least one
further character. -/
def isCommandLine (line : Str) : Bool :=
  List.isPrefixOf "MemReport: ".data line &&
  (List.range (line.drop 11).length).any (fun i =>
    decide (1 ≤ i) && occursAt (line.drop 11) " command".data i &&
    decide (i + 8 < (line.drop 11).length))

/-- `MemreportParser.removeCommandLog` (lines 154-156): the global
multiline replace erases every matched line's content, leaving its line
break in place. -/
def removeCommandLog (text : Str) : Str :=
  List.intercalate ['\n']
    ((splitOnChar '\n' text).map (fun l => if isCommandLine l then [] else l))

/-- First index at which `pat` occurs in `text` at or past `lo`, subject to
the extra test `extra`. -/
def lastEndFrom (text pat : Str) (lo : Nat) : Option Nat :=
  ((List.range (text.length + 1)).reverse).find?
    (fun j => decide (lo ≤ j) && occursAt text pat j)

/-- Start index chosen by the lazy `(?<pre>.*?)` of the table regex
`(?<pre>.*?)(?<table>start.*)(?<post>end)` (flag `s`): the first index where
the start marker occurs and some end-marker occurrence follows the start
marker. -/
def firstTableStart (text s e : Str) : Option Nat :=
  (List.range (text.length + 1)).find? (fun i =>
    occursAt text s i &&
    (List.range (text.length + 1)).any (fun j =>
      decide (i + s.length ≤ j) && occursAt text e j))

/-- The match of `MemreportParser.parseTable`'s combined regex (line 77),
with literal markers: `pre` is the lazy prefix before the first viable
start-marker occurrence, `table` runs from there to the last end-marker
occurrence (greedy `.*`), and `post` is the end-marker match itself. -/
def tableMatch (text s e : Str) : Option (Str × Str × Str) :=
  match firstTableStart text s e with
  | none => none
  | some i =>
    match lastEndFrom text e (i + s.length) with
    | none => none
    | some j =>
      some (text.take i, (text.drop i).take (j - i), (text.drop j).take e.length)

/-- `MemreportParser.splitColumns` (lines 123-152). -/
def splitColumns (row : Str) (p : TableParsePattern) : Option (List Str) :=
  if trim row = [] then none
  else
    match p.splitFormat with
    | some f =>
      match f row with
      | some caps =>
        let result := caps.map (fun s => trim (s.getD []))
        match result with
        | [c0, c1] =>
          if !c1.isEmpty && c1.contains ',' then
            some (c0 :: (splitOnChar ',' c1).map trim)
          else some [c0, c1]
        | _ => some result
      | none => none
    | none =>
      match p.separator with
      | some sep => some ((sep row).map trim)
      | none => some [row]

/-- The `lines` pipeline of `parseTable` (lines 89-91): split the table
body on newlines, trim and split each line, and keep only the non-null,
non-empty cell lists. -/
def tableLines (body : Str) (p : TableParsePattern) : List (List Str) :=
  ((splitOnChar '\n' body).filterMap (fun line => splitColumns (trim line) p)).filter
    (fun r => !r.isEmpty)

/-- `MemreportParser.parseTable` (lines 71-121). -/
def parseTable (text : Str) (p : TableParsePattern) (isFirst isLast : Bool) :
    Option ParsedTable :=
  match tableMatch text p.startPattern p.endPattern with
  | none => none
  | some (pre, body, post) =>
    if (tableLines body p).isEmpty then none
    else
      some { settings := p
             headers := if p.headers then (tableLines body p).head? else none
             rows := if p.headers then (tableLines body p).tail else tableLines body p
             preText := if isFirst then some (trim (removeCommandLog pre)) else none
             postText := if isLast then some (trim (removeCommandLog post)) else none }

/-- The `settings.tables.forEach((tableSettings, index) => ...)` loop of
`parseSection` (lines 50-62). -/
def parseTables (sectionText : Str) (ps : List TableParsePattern) : List ParsedTable :=
  (List.range ps.length).filterMap (fun i =>
    match ps.get? i with
    | some p => parseTable sectionText p (decide (i = 0)) (decide (i = ps.length - 1))
    | none => none)

/-- End position accepted by the section regex `start.+?end$` (flags `ms`):
the end marker occurs at `j` and is followed by a line end (end of input or
a newline). -/
def sectionEndAt (text e : Str) (j : Nat) : Bool :=
  occursAt text e j &&
  (decide (j + e.length = text.length) || text.get? (j + e.length) = some '\n')

/-- First end-marker position at or past `lo` accepted by the lazy `.+?`. -/
def sectionFirstEnd (text e : Str) (lo : Nat) : Option Nat :=
  (List.range (text.length + 1)).find? (fun j => decide (lo ≤ j) && sectionEndAt text e j)

/-- Leftmost start position for the section regex: the first start-marker
occurrence from which some line-final end-marker occurrence is reachable
across at least one character. -/
def sectionStart (text s e : Str) : Option Nat :=
  (List.range (text.length + 1)).find? (fun i =>
    occursAt text s i && (sectionFirstEnd text e (i + s.length + 1)).isSome)

/-- The matched span of `parseSection`'s combined regex (lines 39-47), with
literal markers. -/
def findSectionSpan (text s e : Str) : Option Str :=
  match sectionStart text s e with
  | none => none
  | some i =>
    match sectionFirstEnd text e (i + s.length + 1) with
    | none => none
    | some j => some ((text.drop i).take (j + e.length - i))

/-- `MemreportParser.parseSection` (lines 38-69). -/
def parseSection (text : Str) (s : ResolvedSectionConfig) : Option ParsedSection :=
  match findSectionSpan text s.startPattern s.endPattern with
  | none => none
  | some span =>
    some { title := s.name
           content := if (parseTables span s.tables).isEmpty then
               some (removeCommandLog span) else none
           tables := parseTables span s.tables }

/-- `MemreportParser.parse` (lines 16-35) together with the constructor's
newline normalization; the cooperative `setTimeout` yield affects timing
only, never the produced value. -/
def parseMemreport (content title : Str) (settings : List ResolvedSectionConfig) :
    ParsedDocument :=
  { title := title
    sections := settings.filterMap (parseSection (normalizeNewlines content)) }

/-! ## Helper lemmas -/

lemma isPrefixOf_iff_take (a b : Str) :
    List.isPrefixOf a b = true ↔ b.take a.length = a := by
  induction a generalizing b with
  | nil => simp [List.isPrefixOf]
  | cons x xs ih =>
    cases b with
    | nil => simp [List.isPrefixOf]
    | cons y ys =>
      simp only [List.isPrefixOf_cons₂, Bool.and_eq_true, beq_iff_eq, ih,
        List.length_cons, List.take_succ_cons, List.cons.injEq]
      constructor
      · rintro ⟨h1, h2⟩; exact ⟨h1.symm, h2⟩
      · rintro ⟨h1, h2⟩; exact ⟨h1.symm, h2⟩

lemma take_isPrefixOf (l : Str) (n : Nat) : List.isPrefixOf (l.take n) l = true := by
  induction l generalizing n with
  | nil => simp [List.isPrefixOf]
  | cons a as ih =>
    cases n with
    | zero => simp [List.isPrefixOf]
    | succ m => simpa [List.isPrefixOf] using ih m

lemma splitOnChar_ne_nil (ch : Char) (s : Str) : splitOnChar ch s ≠ [] := by
  cases s with
  | nil => simp [splitOnChar]
  | cons c rest =>
    simp only [splitOnChar]
    split
    · simp
    · split <;> simp

lemma length_splitOnChar (ch : Char) (s : Str) :
    (splitOnChar ch s).length = countChar ch s + 1 := by
  induction s with
  | nil => simp [splitOnChar, countChar]
  | cons c rest ih =>
    simp only [splitOnChar, countChar]
    by_cases h : c = ch
    · simp [h, ih]; omega
    · simp only [if_neg h]
      rcases he : splitOnChar ch rest with _ | ⟨y, ys⟩
      · exact absurd he (splitOnChar_ne_nil ch rest)
      · rw [he] at ih
        simp only [List.length_cons] at ih ⊢
        omega

lemma contains_of_countChar_pos {ch : Char} {s : Str} (h : 1 ≤ countChar ch s) :
    s.contains ch = true := by
  induction s with
  | nil => simp [countChar] at h
  | cons c rest ih =>
    by_cases hc : c = ch
    · simp [List.contains_cons, hc]
    · simp only [countChar, if_neg hc, Nat.zero_add] at h
      have h2 := ih h
      simp only [List.contains_cons, h2, Bool.or_true]

lemma ne_nil_of_countChar_pos {ch : Char} {s : Str} (h : 1 ≤ countChar ch s) :
    s ≠ [] := by
  intro he
  rw [he] at h
  simp [countChar] at h

lemma head_dropWhile_false {q : Char → Bool} {l : List Char} {a : Char} {rest : List Char}
    (h : l.dropWhile q = a :: rest) : q a = false := by
  induction l with
  | nil => simp at h
  | cons c cs ih =>
    cases hqc : q c with
    | true =>
      simp only [List.dropWhile_cons, hqc, if_true] at h
      exact ih h
    | false =>
      simp only [List.dropWhile_cons, hqc, Bool.false_eq_true, if_false,
        List.cons.injEq] at h
      rcases h with ⟨rfl, -⟩
      exact hqc

lemma dropWhile_ne_nil_of_mem {q : Char → Bool} {l : List Char} {b : Char}
    (hb : b ∈ l) (hq : q b = false) : l.dropWhile q ≠ [] := by
  intro h
  rw [List.dropWhile_eq_nil_iff] at h
  have := h b hb
  simp [hq] at this

lemma trim_ne_nil_of_mem {u : Str} {a : Char} (ha : a ∈ u) (hw : isWS a = false) :
    trim u ≠ [] := by
  unfold trim
  intro h
  rw [List.reverse_eq_nil_iff] at h
  rcases hV : u.dropWhile isWS with _ | ⟨c, r⟩
  · exact dropWhile_ne_nil_of_mem ha hw hV
  · have hc : isWS c = false := head_dropWhile_false hV
    have hcm : c ∈ (u.dropWhile isWS).reverse := by rw [hV]; simp
    exact dropWhile_ne_nil_of_mem hcm hc h

lemma exists_not_ws_of_trim_ne_nil {l : Str} (h : trim l ≠ []) :
    ∃ a ∈ trim l, isWS a = false := by
  unfold trim at h ⊢
  rcases hY : List.dropWhile isWS (l.dropWhile isWS).reverse with _ | ⟨a, r⟩
  · rw [hY] at h; simp at h
  · refine ⟨a, ?_, head_dropWhile_false hY⟩
    simp

lemma trim_trim_eq_nil_iff (l : Str) : trim (trim l) = [] ↔ trim l = [] := by
  constructor
  · intro h
    by_contra hne
    rcases exists_not_ws_of_trim_ne_nil hne with ⟨a, ha, hw⟩
    exact trim_ne_nil_of_mem ha hw h
  · intro h; rw [h]; rfl

lemma cons_ne_dupError {c : Char} {r : Str} {n : Str} (hc : c ≠ 'D') :
    c :: r ≠ dupError n := by
  intro h
  have h2 := h.trans (show dupError n = 'D' :: ("uplicate section name: ".data ++ n) from rfl)
  exact hc (List.cons.inj h2).1

lemma nameReq_ne_dupError (n : Str) : "Section name is required".data ≠ dupError n :=
  cons_ne_dupError (by decide)

lemma startErr_ne_dupError (m n : Str) :
    "Start pattern is required for section: ".data ++ m ≠ dupError n :=
  cons_ne_dupError (by decide)

lemma endErr_ne_dupError (m n : Str) :
    "End pattern is required for section: ".data ++ m ≠ dupError n :=
  cons_ne_dupError (by decide)

lemma versionReq_ne_dupError (n : Str) : "Version is required".data ≠ dupError n :=
  cons_ne_dupError (by decide)

lemma atLeastOne_ne_dupError (n : Str) :
    "At least one section is required".data ≠ dupError n :=
  cons_ne_dupError (by decide)

lemma dupError_inj {a b : Str} (h : dupError a = dupError b) : a = b :=
  List.append_cancel_left h

lemma countOcc_append (x : Str) (l1 l2 : List Str) :
    countOcc x (l1 ++ l2) = countOcc x l1 + countOcc x l2 := by
  induction l1 with
  | nil => simp [countOcc]
  | cons y r ih => simp [countOcc, ih]; omega


lemma countOcc_nil (x : Str) : countOcc x [] = 0 := rfl

lemma countOcc_singleton_ne {x y : Str} (h : y ≠ x) : countOcc x [y] = 0 := by
  simp [countOcc, h]

lemma countOcc_singleton_self (x : Str) : countOcc x [x] = 1 := by
  simp [countOcc]

lemma countOcc_dup_validateAux (ss : List SectionDefinition) (seen : List Str)
    (n : Str) (hn : n ≠ []) :
    countOcc (dupError n) (validateSectionsAux ss seen) =
      if n ∈ seen then countNames n ss else countNames n ss - 1 := by
  induction ss generalizing seen with
  | nil =>
    simp only [validateSectionsAux, countOcc_nil, countNames]
    split <;> rfl
  | cons s rest ih =>
    have hstart : countOcc (dupError n)
        (if s.startPattern = [] then
          ["Start pattern is required for section: ".data ++ s.name] else []) = 0 := by
      split
      · exact countOcc_singleton_ne (startErr_ne_dupError s.name n)
      · rfl
    have hend : countOcc (dupError n)
        (if s.endPattern = [] then
          ["End pattern is required for section: ".data ++ s.name] else []) = 0 := by
      split
      · exact countOcc_singleton_ne (endErr_ne_dupError s.name n)
      · rfl
    by_cases hname : s.name = []
    · have hne : s.name ≠ n := by rw [hname]; intro hh; exact hn hh.symm
      have step : validateSectionsAux (s :: rest) seen =
          "Section name is required".data :: validateSectionsAux rest seen := by
        simp only [validateSectionsAux, if_pos hname]
      rw [step]
      show (if "Section name is required".data = dupError n then 1 else 0) +
          countOcc (dupError n) (validateSectionsAux rest seen) = _
      rw [if_neg (nameReq_ne_dupError n), ih seen]
      simp only [countNames, if_neg hne]
      split <;> omega
    · have step : validateSectionsAux (s :: rest) seen =
          (if s.name ∈ seen then [dupError s.name] else []) ++
          (if s.startPattern = [] then
            ["Start pattern is required for section: ".data ++ s.name] else []) ++
          (if s.endPattern = [] then
            ["End pattern is required for section: ".data ++ s.name] else []) ++
          validateSectionsAux rest (s.name :: seen) := by
        simp only [validateSectionsAux, if_neg hname]
      rw [step, countOcc_append, countOcc_append, countOcc_append, hstart, hend,
        ih (s.name :: seen)]
      by_cases heq : s.name = n
      · subst heq
        rw [if_pos (List.mem_cons_self s.name seen)]
        simp only [countNames, eq_self_iff_true, if_true]
        by_cases hseen : s.name ∈ seen
        · rw [if_pos hseen, if_pos hseen, countOcc_singleton_self]
        · rw [if_neg hseen, if_neg hseen, countOcc_nil]
          all_goals omega
      · have hA : countOcc (dupError n)
            (if s.name ∈ seen then [dupError s.name] else []) = 0 := by
          split
          · exact countOcc_singleton_ne (fun hh => heq (dupError_inj hh))
          · rfl
        rw [hA]
        have hmem : (n ∈ s.name :: seen) ↔ (n ∈ seen) := by
          constructor
          · intro hh
            rcases List.mem_cons.mp hh with hh | hh
            · exact absurd hh.symm heq
            · exact hh
          · exact fun hh => List.mem_cons.mpr (Or.inr hh)
        simp only [countNames, if_neg heq]
        by_cases hseen : n ∈ seen
        · rw [if_pos (hmem.mpr hseen), if_pos hseen]
        · rw [if_neg (fun hh => hseen (hmem.mp hh)), if_neg hseen]
          all_goals omega

/-! ## Claim theorems -/

/-- Claim C4: version detection is a total, deterministic function of the
report text; with the UE5 renderer feature markers present together with a
newest-version-exclusive marker it returns 5.6; with the feature markers
but none of the newest-only markers it returns 5.3; with no renderer
markers but the `epicapp=UE_5` environment string it falls back to 5.3;
otherwise it returns 4.27.  Totality and determinism are inherent in
`detectUEVersion` being a Lean function. -/
theorem version_detection_cases (content : Str) :
    (hasUE5Features content = true → hasUE56Markers content = true →
      detectUEVersion content = SupportedVersion.v56) ∧
    (hasUE5Features content = true → hasUE56Markers content = false →
      detectUEVersion content = SupportedVersion.v53) ∧
    (hasUE5Features content = false →
      containsStr content "epicapp=UE_5".data = true →
      detectUEVersion content = SupportedVersion.v53) ∧
    (hasUE5Features content = false →
      containsStr content "epicapp=UE_5".data = false →
      detectUEVersion content = SupportedVersion.v427) := by
  refine ⟨?_, ?_, ?_, ?_⟩ <;> intro h1 h2 <;> simp [detectUEVersion, h1, h2]

/-- Witness for C4: one concrete input per branch of the detection. -/
theorem version_detection_cases_witness :
    detectUEVersion "Lumen wp.DumpStreamingSources".data = SupportedVersion.v56 ∧
    detectUEVersion "Nanite".data = SupportedVersion.v53 ∧
    detectUEVersion "epicapp=UE_5".data = SupportedVersion.v53 ∧
    detectUEVersion [] = SupportedVersion.v427 :=
  ⟨(version_detection_cases _).1 (by decide) (by decide),
   (version_detection_cases _).2.1 (by decide) (by decide),
   (version_detection_cases _).2.2.1 (by decide) (by decide),
   (version_detection_cases _).2.2.2 (by decide) (by decide)⟩

/-- Claim C8: the modern-dialect line `+Cmd="stat memory"` inside its
recognized `[MemReportFullCommands]` block (in a file carrying the
`[MemReportCommands]` dialect marker) yields a section named `stat memory`
whose markers embed the command in the fixed begin/end phrasing and whose
pattern id is `stat_memory`; in general the pattern id is the command text
with filesystem-reserved characters, whitespace runs and dot runs replaced
by underscores, lower-cased. -/
theorem modern_command_registration :
    parseEngineConfig
        "[MemReportCommands]\n[MemReportFullCommands]\n+Cmd=\"stat memory\"".data
        "5.6".data =
      { version := "5.6".data
        description := "Unreal Engine 5.6 configuration".data
        sections := [ { name := "stat memory".data
                        startPattern := "MemReport: Begin command \"stat memory\"".data
                        endPattern := "MemReport: End command \"stat memory\"".data
                        parsePatternId := some "stat_memory".data } ] } ∧
    ∀ command : Str, parseCommandToSection command =
      { name := command
        startPattern := "MemReport: Begin command \"".data ++ command ++ ['"']
        endPattern := "MemReport: End command \"".data ++ command ++ ['"']
        parsePatternId := some ((collapseRuns (fun c => c = '.')
          (collapseRuns isWS (replaceInvalidChars command))).map Char.toLower) } :=
  ⟨by decide, fun _ => rfl⟩

/-- Claim C9: in every engine config in which a (non-missing) section name
occurs k ≥ 2 times, validation returns exactly k − 1 duplicate-name
diagnostics for that name.  The empty string is excluded because the source
treats a falsy name as a missing name (`Section name is required`) and
skips the duplicate check for it. -/
theorem duplicate_names_flagged (config : EngineConfig) (n : Str)
    (hn : n ≠ []) (hk : 2 ≤ countNames n config.sections) :
    countOcc (dupError n) (validateEngineConfig config) =
      countNames n config.sections - 1 := by
  have h1 : countOcc (dupError n)
      (if config.version = [] then ["Version is required".data] else []) = 0 := by
    split
    · exact countOcc_singleton_ne (versionReq_ne_dupError n)
    · rfl
  have h2 : countOcc (dupError n)
      (if config.sections = [] then ["At least one section is required".data] else []) = 0 := by
    split
    · exact countOcc_singleton_ne (atLeastOne_ne_dupError n)
    · rfl
  unfold validateEngineConfig
  rw [countOcc_append, countOcc_append, h1, h2,
    countOcc_dup_validateAux config.sections [] n hn]
  simp

def cfgDupWitness : EngineConfig :=
  { version := "5.6".data
    description := []
    sections :=
      [ { name := "A".data, startPattern := "S".data, endPattern := "E".data,
          parsePatternId := none },
        { name := "A".data, startPattern := "S".data, endPattern := "E".data,
          parsePatternId := none } ] }

/-- Witness for C9: a config with the name `A` occurring twice yields
exactly one duplicate diagnostic. -/
theorem duplicate_names_flagged_witness :
    countOcc (dupError "A".data) (validateEngineConfig cfgDupWitness) =
      countNames "A".data cfgDupWitness.sections - 1 :=
  duplicate_names_flagged cfgDupWitness "A".data (by decide) (by decide)

/-- Claim C10: when a table pattern declares neither a `splitFormat`
extraction rule nor a `separator`, every table-body line that is non-blank
after trimming becomes a row with exactly one cell — the trimmed line —
and blank lines produce no row. -/
theorem default_split_single_cell (p : TableParsePattern) (body : Str)
    (h1 : p.splitFormat = none) (h2 : p.separator = none) :
    tableLines body p =
      (((splitOnChar '\n' body).map trim).filter (fun l => !l.isEmpty)).map
        (fun l => [l]) := by
  unfold tableLines
  induction splitOnChar '\n' body with
  | nil => rfl
  | cons l rest ih =>
    have hsc : splitColumns (trim l) p =
        if trim (trim l) = [] then none else some [trim l] := by
      unfold splitColumns
      rw [h1, h2]
    by_cases hb : trim l = []
    · have : trim (trim l) = [] := by rw [hb]; rfl
      rw [List.filterMap_cons, List.map_cons, List.filter_cons, hsc, if_pos this]
      simp only [hb, List.isEmpty_nil, Bool.not_true, Bool.false_eq_true, if_false]
      exact ih
    · have hbb : trim (trim l) ≠ [] := fun hh => hb ((trim_trim_eq_nil_iff l).mp hh)
      rw [List.filterMap_cons, List.map_cons, List.filter_cons, hsc, if_neg hbb]
      have hne : ¬ (trim l).isEmpty = true := by
        simpa [List.isEmpty_iff] using hb
      simp only [hne, Bool.not_false, if_true, List.filter_cons, List.map_cons]
      have hcell : ([trim l].isEmpty = false) := rfl
      simp only [hcell, Bool.not_false, if_true, List.map_cons]
      rw [ih]

def patDefaultWitness : TableParsePattern :=
  { name := none, startPattern := "T".data, endPattern := "E".data,
    headers := false, separator := none, splitFormat := none,
    numericColumns := [] }

/-- Witness for C10: a body with an untrimmed line, a blank line and a bare
line, under a pattern with no splitting strategy. -/
theorem default_split_single_cell_witness :
    tableLines " a \n\nb\n".data patDefaultWitness =
      (((splitOnChar '\n' " a \n\nb\n".data).map trim).filter
        (fun l => !l.isEmpty)).map (fun l => [l]) :=
  default_split_single_cell patDefaultWitness " a \n\nb\n".data rfl rfl

/-- Claim C5: when the capture-group extraction rule yields exactly two
cells and the second contains N ≥ 1 commas, the resulting row is the label
cell followed by one trimmed cell per comma-separated value, of length
1 + (N + 1). -/
theorem comma_expansion_row_length (p : TableParsePattern)
    (f : Str → Option (List (Option Str))) (row : Str)
    (caps : List (Option Str)) (c0 c1 : Str) (n : Nat)
    (hblank : trim row ≠ [])
    (hf : p.splitFormat = some f)
    (hr : f row = some caps)
    (hc : caps.map (fun s => trim (s.getD [])) = [c0, c1])
    (hn : countChar ',' c1 = n) (hn1 : 1 ≤ n) :
    splitColumns row p = some (c0 :: (splitOnChar ',' c1).map trim) ∧
    (c0 :: (splitOnChar ',' c1).map trim).length = 1 + (n + 1) := by
  have hpos : 1 ≤ countChar ',' c1 := hn ▸ hn1
  have hcontains : c1.contains ',' = true := contains_of_countChar_pos hpos
  have hnonempty : c1 ≠ [] := ne_nil_of_countChar_pos hpos
  have hie : (!c1.isEmpty && c1.contains ',') = true := by
    rcases c1 with _ | ⟨a, r⟩
    · exact absurd rfl hnonempty
    · simp only [List.isEmpty_cons, Bool.not_false, Bool.true_and]
      exact hcontains
  constructor
  · simp only [splitColumns, if_neg hblank, hf, hr, hc, hie, if_true]
  · simp only [List.length_cons, List.length_map, length_splitOnChar, hn]
    omega

def commaOracle : Str → Option (List (Option Str)) :=
  fun r =>
    if r = "Used 1,2".data then some [some "Used".data, some "1,2".data]
    else none

def patCommaWitness : TableParsePattern :=
  { name := none, startPattern := "T".data, endPattern := "E".data,
    headers := false, separator := none, splitFormat := some commaOracle,
    numericColumns := [] }

/-- Witness for C5: a rule capturing `Used` and `1,2` expands into three
cells. -/
theorem comma_expansion_row_length_witness :
    splitColumns "Used 1,2".data patCommaWitness =
      some ("Used".data :: (splitOnChar ',' "1,2".data).map trim) ∧
    ("Used".data :: (splitOnChar ',' "1,2".data).map trim).length = 1 + (1 + 1) :=
  comma_expansion_row_length patCommaWitness commaOracle "Used 1,2".data
    [some "Used".data, some "1,2".data] "Used".data "1,2".data 1
    (by decide) rfl (by decide) (by decide) (by decide) (by decide)

/-- Claim C2 counterexample: with the manifest reporting the pattern
present and the fetch answering with a non-JSON content type, resolution
completes with no cache entry for the key, and an immediately following
resolution of the same pair fetches the pattern resource again — refuting
both halves of the claim. -/
theorem pattern_cache_refetch_counterexample :
    cacheGet (loadParsePattern ⟨true, .wrongContentType⟩ []
        "rendertargetpool".data "5.6".data).cache
      (mkCacheKey "5.6".data "rendertargetpool".data) = none ∧
    (loadParsePattern ⟨true, .wrongContentType⟩
        (loadParsePattern ⟨true, .wrongContentType⟩ []
          "rendertargetpool".data "5.6".data).cache
        "rendertargetpool".data "5.6".data).fetched = true :=
  ⟨rfl, rfl⟩

lemma cacheGet_cacheSet (cache : PatternCache) (k : Str) (val : Option ParsePattern) :
    cacheGet (cacheSet cache k val) k = some val := by
  unfold cacheGet cacheSet
  rw [List.find?_cons_of_pos _ (by simp)]
  rfl

lemma load_result_cached (env : PatternEnv) (cache : PatternCache) (pid v : Str)
    (pat : ParsePattern)
    (h : (loadParsePattern env cache pid v).result = some pat) :
    cacheGet (loadParsePattern env cache pid v).cache (mkCacheKey v pid) =
      some (some pat) := by
  obtain ⟨mh, fo⟩ := env
  rcases hcg : cacheGet cache (mkCacheKey v pid) with _ | ⟨_ | p⟩ <;>
    cases mh <;> cases fo <;>
      simp_all [loadParsePattern, loadParsePatternMiss, cacheGet_cacheSet]

lemma load_manifest_absent (env : PatternEnv) (cache : PatternCache) (pid v : Str)
    (hm : env.manifestHas = false)
    (h : (loadParsePattern env cache pid v).result = none) :
    cacheGet (loadParsePattern env cache pid v).cache (mkCacheKey v pid) =
      some none := by
  obtain ⟨mh, fo⟩ := env
  rcases hcg : cacheGet cache (mkCacheKey v pid) with _ | ⟨_ | p⟩ <;>
    cases mh <;> cases fo <;>
      simp_all [loadParsePattern, loadParsePatternMiss, cacheGet_cacheSet]

lemma load_no_fetch_of_hit (env : PatternEnv) (cache : PatternCache) (pid v : Str)
    (pat : ParsePattern)
    (h : cacheGet cache (mkCacheKey v pid) = some (some pat)) :
    (loadParsePattern env cache pid v).fetched = false ∧
    (loadParsePattern env cache pid v).result = some pat := by
  simp [loadParsePattern, h]

lemma load_no_fetch_of_null (env : PatternEnv) (cache : PatternCache) (pid v : Str)
    (h : cacheGet cache (mkCacheKey v pid) = some none)
    (hm : env.manifestHas = false) :
    (loadParsePattern env cache pid v).fetched = false := by
  simp [loadParsePattern, loadParsePatternMiss, h, hm]

/-- Amended C2: when a resolution returns a pattern, or when the manifest
reports the pattern absent (resolution returns the confirmed-absent
result), the cache afterwards holds the pattern (resp. the absent marker)
and an immediately repeated resolution of the same pair performs no fetch;
resolutions that fail after fetching (non-OK status, wrong content type,
HTML body, malformed JSON) do not establish this, as the counterexample
shows. -/
theorem pattern_cache_amended (env : PatternEnv) (cache : PatternCache) (pid v : Str) :
    (∀ pat, (loadParsePattern env cache pid v).result = some pat →
      cacheGet (loadParsePattern env cache pid v).cache (mkCacheKey v pid) =
        some (some pat) ∧
      (loadParsePattern env (loadParsePattern env cache pid v).cache pid v).fetched =
        false ∧
      (loadParsePattern env (loadParsePattern env cache pid v).cache pid v).result =
        some pat) ∧
    (env.manifestHas = false → (loadParsePattern env cache pid v).result = none →
      cacheGet (loadParsePattern env cache pid v).cache (mkCacheKey v pid) =
        some none ∧
      (loadParsePattern env (loadParsePattern env cache pid v).cache pid v).fetched =
        false) := by
  constructor
  · intro pat hres
    have hc := load_result_cached env cache pid v pat hres
    exact ⟨hc, (load_no_fetch_of_hit env _ pid v pat hc).1,
      (load_no_fetch_of_hit env _ pid v pat hc).2⟩
  · intro hm hres
    have hc := load_manifest_absent env cache pid v hm hres
    exact ⟨hc, load_no_fetch_of_null env _ pid v hc hm⟩

def patOkWitness : ParsePattern := ⟨[]⟩

/-- Witness for the amended C2: a successful fetch and a manifest-absent
resolution, each followed by a fetch-free repeat. -/
theorem pattern_cache_amended_witness :
    (cacheGet (loadParsePattern ⟨true, .okJson patOkWitness⟩ []
          "obj_list".data "5.6".data).cache
        (mkCacheKey "5.6".data "obj_list".data) = some (some patOkWitness) ∧
      (loadParsePattern ⟨true, .okJson patOkWitness⟩
          (loadParsePattern ⟨true, .okJson patOkWitness⟩ []
            "obj_list".data "5.6".data).cache
          "obj_list".data "5.6".data).fetched = false ∧
      (loadParsePattern ⟨true, .okJson patOkWitness⟩
          (loadParsePattern ⟨true, .okJson patOkWitness⟩ []
            "obj_list".data "5.6".data).cache
          "obj_list".data "5.6".data).result = some patOkWitness) ∧
    (cacheGet (loadParsePattern ⟨false, .notOk⟩ []
          "obj_list".data "5.6".data).cache
        (mkCacheKey "5.6".data "obj_list".data) = some none ∧
      (loadParsePattern ⟨false, .notOk⟩
          (loadParsePattern ⟨false, .notOk⟩ []
            "obj_list".data "5.6".data).cache
          "obj_list".data "5.6".data).fetched = false) :=
  ⟨(pattern_cache_amended ⟨true, .okJson patOkWitness⟩ []
      "obj_list".data "5.6".data).1 patOkWitness rfl,
   (pattern_cache_amended ⟨false, .notOk⟩ []
      "obj_list".data "5.6".data).2 rfl rfl⟩

lemma tableLines_length (body : Str) (p : TableParsePattern) :
    (tableLines body p).length =
      (splitOnChar '\n' body).countP
        (fun l => !((splitColumns (trim l) p).getD []).isEmpty) := by
  unfold tableLines
  induction splitOnChar '\n' body with
  | nil => rfl
  | cons l rest ih =>
    rw [List.filterMap_cons, List.countP_cons]
    rcases hs : splitColumns (trim l) p with _ | r
    · simp only [Option.getD_none, List.isEmpty_nil, Bool.not_true,
        Bool.false_eq_true, if_false, Nat.add_zero]
      exact ih
    · rw [List.filter_cons]
      cases hr : r.isEmpty
      · simp only [Option.getD_some, hr, Bool.not_false, if_true, List.length_cons, ih]
      · simp only [Option.getD_some, hr, Bool.not_true, Bool.false_eq_true, if_false,
          Nat.add_zero]
        exact ih

def arityOracle : Str → Option (List (Option Str)) :=
  fun r =>
    if r = "TBL".data then some [some "TBL".data]
    else if r = "k 1,2".data then some [some "k".data, some "1,2".data]
    else none

def patC3Counter : TableParsePattern :=
  { name := none, startPattern := "TBL".data, endPattern := "END".data,
    headers := true, separator := none, splitFormat := some arityOracle,
    numericColumns := [] }

def tC3Counter : Str := "TBL\nk 1,2\nzzz\nEND".data

/-- Counterexample to C3: under a header-row pattern whose extraction rule
fails on the non-blank body line `zzz` and comma-expands the line `k 1,2`,
the matched body has three non-blank lines but the parsed table has one
data row (not 3 − 1 = 2), and the header has one cell while the data row
has three — refuting both halves of the claim. -/
theorem header_table_arity_counterexample :
    (tableMatch tC3Counter patC3Counter.startPattern
        patC3Counter.endPattern).map (fun m => m.2.1) =
      some "TBL\nk 1,2\nzzz\n".data ∧
    ((splitOnChar '\n' "TBL\nk 1,2\nzzz\n".data).filter
        (fun l => !(trim l).isEmpty)).length = 3 ∧
    (parseTable tC3Counter patC3Counter true true).map
        (fun t => t.rows.length) = some 1 ∧
    (parseTable tC3Counter patC3Counter true true).map
        (fun t => (t.headers.getD []).length) = some 1 ∧
    (parseTable tC3Counter patC3Counter true true).map
        (fun t => t.rows.head?.map List.length) = some (some 3) := by
  refine ⟨by decide, by decide, by decide, by decide, by decide⟩

/-- Amended C3: for a header-row pattern whose matcher finds a table body,
the number of data rows equals the number of body lines whose configured
split yields a non-empty cell list, minus one; the header's cell count is
not guaranteed to equal the data rows' (see the counterexample). -/
theorem header_table_row_count_amended (text : Str) (p : TableParsePattern)
    (isF isL : Bool) (t : ParsedTable) (pre body post : Str)
    (hh : p.headers = true)
    (hm : tableMatch text p.startPattern p.endPattern = some (pre, body, post))
    (ht : parseTable text p isF isL = some t) :
    t.rows.length + 1 =
      (splitOnChar '\n' body).countP
        (fun l => !((splitColumns (trim l) p).getD []).isEmpty) := by
  unfold parseTable at ht
  simp only [hm] at ht
  by_cases he : (tableLines body p).isEmpty
  · rw [if_pos he] at ht
    exact absurd ht (by simp)
  · rw [if_neg he] at ht
    have h2 := Option.some.inj ht
    rw [← h2]
    simp only [hh, if_true]
    have hpos : tableLines body p ≠ [] := by
      simpa [List.isEmpty_iff] using he
    have hq : 1 ≤ (tableLines body p).length := List.length_pos.mpr hpos
    rw [← tableLines_length body p, List.length_tail]
    omega

def patC3Witness : TableParsePattern :=
  { name := none, startPattern := "TBL".data, endPattern := "END".data,
    headers := true, separator := none, splitFormat := none,
    numericColumns := [] }

def tC3WitnessResult : ParsedTable :=
  { settings := patC3Witness
    headers := some ["TBL".data]
    rows := [["x".data]]
    preText := some []
    postText := some "END".data }

/-- Witness for the amended C3 at a concrete header-row table. -/
theorem header_table_row_count_amended_witness :
    tC3WitnessResult.rows.length + 1 =
      (splitOnChar '\n' "TBL\nx\n".data).countP
        (fun l => !((splitColumns (trim l) patC3Witness).getD []).isEmpty) :=
  header_table_row_count_amended "TBL\nx\nEND".data patC3Witness true true
    tC3WitnessResult [] "TBL\nx\n".data "END".data rfl (by decide) rfl

/-- Claim C6: a section configured with zero table patterns whose markers
match produces a section whose content equals the matched span with all
command-echo lines removed, and an empty table list. -/
theorem plain_section_content (text : Str) (s : ResolvedSectionConfig) (span : Str)
    (ht : s.tables = [])
    (hm : findSectionSpan text s.startPattern s.endPattern = some span) :
    parseSection text s =
      some { title := s.name, content := some (removeCommandLog span),
             tables := [] } := by
  unfold parseSection
  simp only [hm, ht]
  rfl

def sPlainWitness : ResolvedSectionConfig :=
  { name := "X".data, startPattern := "BEGIN".data, endPattern := "END".data,
    tables := [] }

def tPlainWitness : Str :=
  "BEGIN\nMemReport: Begin command \"x\" ok\ndata\nEND".data

/-- Witness for C6: a matched plain section containing one command-echo
line, which is stripped from the content. -/
theorem plain_section_content_witness :
    parseSection tPlainWitness sPlainWitness =
      some { title := "X".data,
             content := some (removeCommandLog tPlainWitness),
             tables := [] } :=
  plain_section_content tPlainWitness sPlainWitness tPlainWitness rfl (by decide)

/-- Claim C7: a configured section whose combined start…end matcher finds
no match in the report text is omitted from the output document's section
list, no error is raised (the parser is a total function), and the
remaining sections are parsed exactly as if the section were absent from
the configuration. -/
theorem missing_section_omitted (content title : Str)
    (pre post : List ResolvedSectionConfig) (s : ResolvedSectionConfig)
    (h : findSectionSpan (normalizeNewlines content) s.startPattern
        s.endPattern = none) :
    parseMemreport content title (pre ++ s :: post) =
      parseMemreport content title (pre ++ post) := by
  unfold parseMemreport
  have hs : parseSection (normalizeNewlines content) s = none := by
    unfold parseSection
    rw [h]
  simp [List.filterMap_append, List.filterMap_cons, hs]

def sMissingWitness : ResolvedSectionConfig :=
  { name := "M".data, startPattern := "ZZZ".data, endPattern := "QQQ".data,
    tables := [] }

/-- Witness for C7: an unmatched section is dropped while the matching one
after it still parses. -/
theorem missing_section_omitted_witness :
    parseMemreport "hello\nBEGIN\nx\nEND".data "r".data
        ([] ++ sMissingWitness :: [sPlainWitness]) =
      parseMemreport "hello\nBEGIN\nx\nEND".data "r".data ([] ++ [sPlainWitness]) :=
  missing_section_omitted "hello\nBEGIN\nx\nEND".data "r".data []
    [sPlainWitness] sMissingWitness (by decide)

/-- Claim C1: applying a table pattern to the matched section span captures
three parts — leading text, the table body beginning at the pattern's start
marker, and the end-marker match (the `post` group) — whose concatenation
is a prefix of the span; across a section's pattern list only index 0
retains its leading text as `preText` and only the last index retains its
`post` capture as `postText`, every interior pattern's boundary captures
being discarded. -/
theorem table_boundary_capture_retention (sectionText : Str)
    (ps : List TableParsePattern) (j : Nat) (p : TableParsePattern)
    (t : ParsedTable) (pre body post : Str)
    (hj : ps.get? j = some p)
    (hm : tableMatch sectionText p.startPattern p.endPattern =
      some (pre, body, post))
    (ht : parseTable sectionText p (decide (j = 0))
        (decide (j = ps.length - 1)) = some t) :
    List.isPrefixOf (pre ++ body ++ post) sectionText = true ∧
    List.isPrefixOf p.startPattern body = true ∧
    post = p.endPattern ∧
    t.preText = (if j = 0 then some (trim (removeCommandLog pre)) else none) ∧
    t.postText =
      (if j = ps.length - 1 then some (trim (removeCommandLog post)) else none) := by
  have hm0 := hm
  unfold tableMatch at hm
  split at hm
  · simp at hm
  · rename_i i hfs
    split at hm
    · simp at hm
    · rename_i q hle
      obtain ⟨rfl, rfl, rfl⟩ := Option.some.inj hm
      unfold firstTableStart at hfs
      have hpred := List.find?_some hfs
      rw [Bool.and_eq_true] at hpred
      obtain ⟨hsi, -⟩ := hpred
      unfold lastEndFrom at hle
      have hqpred := List.find?_some hle
      rw [Bool.and_eq_true] at hqpred
      obtain ⟨hq', hei⟩ := hqpred
      have hq : i + p.startPattern.length ≤ q := of_decide_eq_true hq'
      unfold occursAt at hsi hei
      have hpost : (sectionText.drop q).take p.endPattern.length = p.endPattern :=
        (isPrefixOf_iff_take _ _).mp hei
      have h1 : sectionText.take i ++ (sectionText.drop i).take (q - i) =
          sectionText.take q := by
        have hiq2 : i + (q - i) = q := by omega
        rw [← List.take_add, hiq2]
      unfold parseTable at ht
      simp only [hm0] at ht
      by_cases he : (tableLines ((sectionText.drop i).take (q - i)) p).isEmpty
      · rw [if_pos he] at ht
        exact absurd ht (by simp)
      rw [if_neg he] at ht
      have h3 := Option.some.inj ht
      refine ⟨?_, ?_, hpost, ?_, ?_⟩
      · rw [h1, ← List.take_add]
        exact take_isPrefixOf sectionText _
      · rw [isPrefixOf_iff_take, List.take_take,
          inf_eq_left.mpr (by omega : p.startPattern.length ≤ q - i)]
        exact (isPrefixOf_iff_take _ _).mp hsi
      · rw [← h3]
        by_cases hj0 : j = 0 <;> simp [hj0]
      · rw [← h3]
        by_cases hjl : j = ps.length - 1 <;> simp [hjl]

def patC1W1 : TableParsePattern :=
  { name := none, startPattern := "S1".data, endPattern := "E1".data,
    headers := false, separator := none, splitFormat := none,
    numericColumns := [] }

def patC1W2 : TableParsePattern :=
  { name := none, startPattern := "S2".data, endPattern := "E2".data,
    headers := false, separator := none, splitFormat := none,
    numericColumns := [] }

def patC1W3 : TableParsePattern :=
  { name := none, startPattern := "S3".data, endPattern := "E3".data,
    headers := false, separator := none, splitFormat := none,
    numericColumns := [] }

def patsC1Witness : List TableParsePattern := [patC1W1, patC1W2, patC1W3]

def tC1WitnessText : Str := "aS1\nb\nE1midS2\nc\nE2midS3\nd\nE3tail".data

def tC1WitnessResult : ParsedTable :=
  { settings := patC1W2
    headers := none
    rows := [["S2".data], ["c".data]]
    preText := none
    postText := none }

/-- Witness for C1: the middle pattern of a three-pattern section keeps
neither its leading text nor its end-marker capture. -/
theorem table_boundary_capture_retention_witness :
    List.isPrefixOf ("aS1\nb\nE1mid".data ++ "S2\nc\n".data ++ "E2".data)
        tC1WitnessText = true ∧
    List.isPrefixOf patC1W2.startPattern "S2\nc\n".data = true ∧
    "E2".data = patC1W2.endPattern ∧
    tC1WitnessResult.preText =
      (if 1 = 0 then
        some (trim (removeCommandLog "aS1\nb\nE1mid".data)) else none) ∧
    tC1WitnessResult.postText =
      (if 1 = patsC1Witness.length - 1 then
        some (trim (removeCommandLog "E2".data)) else none) :=
  table_boundary_capture_retention tC1WitnessText patsC1Witness 1 patC1W2
    tC1WitnessResult "aS1\nb\nE1mid".data "S2\nc\n".data "E2".data
    rfl (by decide) rfl
